import Mathlib

/-! Verification of the powa-web metric sampling, delta and downsampling
engine.

The definitions below are shallow embeddings of the SQL-generating code in
`powa/sql/views.py`, `powa/database.py` and `powa/server.py`: window functions
become functions on lists ordered the way the corresponding `ORDER BY` orders
the rows of one partition, SQL `int8` arithmetic on non-negative row counters
becomes `Nat` arithmetic, counter values become `Int`, timestamps become
`Int`, and the fallible HTTP handler returns `Except`. -/

/-- Embeds `Biggest.__call__` and `Biggestsum.__call__` (powa/sql/views.py):
`greatest(lead(var) OVER (PARTITION BY base ORDER BY ts) - var, minval)`.
`lead` is `NULL` on the last row of a partition, and PostgreSQL `greatest`
ignores `NULL` arguments, so a row without a successor yields `minval`. -/
def biggest (minval cur : Int) (next : Option Int) : Int :=
  match next with
  | some nx => max (nx - cur) minval
  | none => minval

/-- The delta column produced by `Biggest`/`Biggestsum` for one partition whose
counter values, ordered by `ts`, are `vs`: one output row per input row, each
paired with the following row via `lead`. -/
def biggestSeries (minval : Int) : List Int → List Int
  | [] => []
  | v :: rest => biggest minval v rest.head? :: biggestSeries minval rest

/-- Embeds `int8larger` as used in the sampling queries; both arguments there
are non-negative (`total / (samples + 1)` and `1`). -/
def int8larger (a b : Nat) : Nat := max a b

/-- The sampling stride `int8larger((total)/(:samples+1), 1)` of
`BASE_QUERY_SAMPLE` and `BASE_QUERY_SAMPLE_DB` (powa/sql/views.py); SQL `int8`
division on non-negative operands is `Nat` division. -/
def stride (total samples : Nat) : Nat := int8larger (total / (samples + 1)) 1

/-- Embeds the row selection of `BASE_QUERY_SAMPLE` / `BASE_QUERY_SAMPLE_DB`
(powa/sql/views.py) on one partition: rows are numbered `1..total` in `ts`
order (`row_number() OVER (PARTITION BY ... ORDER BY ts)` with
`count(*) OVER (PARTITION BY ...)` as `total`), and a row is kept iff
`number % int8larger((total)/(:samples+1), 1) = 0`. -/
def base_query_sample {α : Type} (samples : Nat) (rows : List α) : List α :=
  (rows.enum.filter fun p => (p.1 + 1) % stride rows.length samples == 0).map Prod.snd

/-- Embeds `powa_getstatdata_sample` (powa/sql/views.py) for one partition and
one counter column: it applies `Biggest`/`Biggestsum` on top of the sampled
base query, so the `lead` window ranges over the rows that survived the
sampling filter of the base query. -/
def powa_getstatdata_sample (samples : Nat) (minval : Int) (rows : List Int) : List Int :=
  biggestSeries minval (base_query_sample samples rows)

/-- A stored snapshot record: timestamp plus one representative counter value,
as unnested from `records` / `record` columns. -/
structure Snap where
  ts : Int
  val : Int
deriving DecidableEq

/-- A timestamp range with inclusive bounds, as built by
`tstzrange(:from, :to, '[]')` and stored in `coalesce_range`. -/
structure TsRange where
  lo : Int
  hi : Int
deriving DecidableEq

/-- `coalesce_range && tstzrange(:from, :to, '[]')`: the closed ranges
intersect. -/
def rangeOverlaps (r w : TsRange) : Bool := r.lo ≤ w.hi && w.lo ≤ r.hi

/-- `r @> t`: the closed range contains the timestamp. -/
def rangeContains (r : TsRange) (t : Int) : Bool := r.lo ≤ t && t ≤ r.hi

/-- `tstzrange(:from, :to, '[]') @> (records).ts`. -/
def inWindow (w : TsRange) (s : Snap) : Bool := rangeContains w s.ts

/-- Embeds `powa_base_statdata_detailed_db` (powa/sql/views.py) for one entity:
`hist` is the historical tier, one entry per `powa_statements_history` row
holding its `coalesce_range` and its unnested `records`; `cur` is the current
tier (`powa_statements_history_current`); `w` the requested window.  The query
unnests every history row whose range overlaps the window, keeps the records
whose `ts` lies in the window, and appends (UNION ALL) the current-tier
records lying in the window. -/
def powa_base_statdata_detailed_db (hist : List (TsRange × List Snap)) (cur : List Snap)
    (w : TsRange) : List Snap :=
  ((hist.filter fun h => rangeOverlaps h.1 w).flatMap fun h => h.2.filter (inWindow w)) ++
    cur.filter (inWindow w)

/-- Embeds `powa_base_statdata_db` (powa/sql/views.py) for one database:
`min_ts` / `max_ts` are the least lower bound and the greatest upper bound of
the history ranges overlapping the window (the `ranges` subquery); only the
history rows whose range contains `min_ts` (`unnested1`), those whose range
contains `max_ts` (`unnested2`), and the current tier are unnested
(UNION ALL), each filtered to records whose `ts` lies in the window. -/
def powa_base_statdata_db (hist : List (TsRange × List Snap)) (cur : List Snap)
    (w : TsRange) : List Snap :=
  let overl := hist.filter fun h => rangeOverlaps h.1 w
  let minTs := (overl.map fun h => h.1.lo).min?
  let maxTs := (overl.map fun h => h.1.hi).max?
  let u1 := match minTs with
    | some m => (hist.filter fun h => rangeContains h.1 m).flatMap fun h => h.2.filter (inWindow w)
    | none => []
  let u2 := match maxTs with
    | some m => (hist.filter fun h => rangeContains h.1 m).flatMap fun h => h.2.filter (inWindow w)
    | none => []
  u1 ++ u2 ++ cur.filter (inWindow w)

/-- The `HAVING max(col) - min(col) > 0` predicate of
`powa_getstatdata_detailed_db` / `powa_getwaitdata_detailed_db`
(powa/sql/views.py), applied to the counter values of one group (SQL groups
are never empty). -/
def havingMaxMinPos (g : List Int) : Bool :=
  match g.max?, g.min? with
  | some M, some m => decide (0 < M - m)
  | _, _ => false

/-- Embeds the row retention of `powa_getstatdata_detailed_db`
(powa/sql/views.py): each group is a (grouping key, `calls` values) pair and
survives iff `max(calls) - min(calls) > 0`. -/
def powa_getstatdata_detailed_db (groups : List (Nat × List Int)) : List (Nat × List Int) :=
  groups.filter fun g => havingMaxMinPos g.2

/-- Embeds the row retention of `powa_getwaitdata_detailed_db`
(powa/sql/views.py): same shape, with the wait-event `count` as the grouped
counter. -/
def powa_getwaitdata_detailed_db (groups : List (Nat × List Int)) : List (Nat × List Int) :=
  groups.filter fun g => havingMaxMinPos g.2

/-- PostgreSQL `greatest` on two numeric values. -/
def greatest (a b : ℚ) : ℚ := max a b

/-- `sum(c.calls) / greatest(extract("epoch", c.mesure_interval), 1)` from
`DatabaseOverviewMetricGroup.query` (powa/database.py) and
`GlobalDatabasesMetricGroup.query` (powa/server.py). -/
def calls_rate (callsDelta elapsed : ℚ) : ℚ := callsDelta / greatest elapsed 1

/-- `sum(c.runtime) / greatest(sum(c.calls), 1)` — the `avg_runtime` ratio of
the same queries. -/
def avg_runtime (runtimeDelta callsDelta : ℚ) : ℚ := runtimeDelta / greatest callsDelta 1

/-- `sum(c.runtime) / greatest(extract("epoch", c.mesure_interval), 1)` — the
`load` rate of the same queries. -/
def load_rate (runtimeDelta elapsed : ℚ) : ℚ := runtimeDelta / greatest elapsed 1

/-- The metric keys declared on `DatabaseOverviewMetricGroup`
(powa/database.py) and `GlobalDatabasesMetricGroup` (powa/server.py). -/
inductive MetricField
  | avg_runtime | calls | load | total_blks_hit | total_blks_read
  | total_sys_hit | total_disk_read | minflts | majflts | nvcsws | nivcsws
deriving DecidableEq

/-- `cls.metrics`: every `MetricDef` declared on the class, in declaration
order. -/
def clsMetrics : List MetricField :=
  [.avg_runtime, .calls, .load, .total_blks_hit, .total_blks_read,
   .total_sys_hit, .total_disk_read, .minflts, .majflts, .nvcsws, .nivcsws]

/-- The keys popped from the schema when `pg_stat_kcache` is absent. -/
def kcacheOnlyFields : List MetricField :=
  [.total_sys_hit, .total_disk_read, .minflts, .majflts, .nvcsws, .nivcsws]

/-- Embeds `_get_metrics` of `DatabaseOverviewMetricGroup` (powa/database.py)
and `GlobalDatabasesMetricGroup` (powa/server.py): start from a copy of the
class metrics; without `pg_stat_kcache` pop every kcache-sourced key, with it
pop `total_blks_read`. -/
def get_metrics (hasKcache : Bool) : List MetricField :=
  if hasKcache then clsMetrics.filter fun k => k != .total_blks_read
  else clsMetrics.filter fun k => !(kcacheOnlyFields.contains k)

/-- `tornado.web.HTTPError` as raised by the wait-event metric groups. -/
structure HTTPError where
  status : Nat
  reason : String
deriving DecidableEq

/-- Embeds `prepare` of `DatabaseWaitOverviewMetricGroup` (powa/database.py)
and `GlobalWaitsMetricGroup` (powa/server.py): raise `HTTPError(501,
"pg_wait_sampling is not installed")` when the server lacks the
`pg_wait_sampling` extension, otherwise proceed. -/
def prepare (hasWaitSampling : Bool) : Except HTTPError Unit :=
  if !hasWaitSampling then .error ⟨501, "pg_wait_sampling is not installed"⟩
  else .ok ()

/-- A snapshot sequence, ordered by `ts`, whose counter values are
monotonically non-decreasing. -/
def nonDecreasing : List Int → Bool
  | [] => true
  | [_] => true
  | a :: b :: rest => decide (a ≤ b) && nonDecreasing (b :: rest)

lemma biggest_le (m v : Int) (next : Option Int) : m ≤ biggest m v next := by
  cases next with
  | none => exact le_refl m
  | some nx => exact le_max_right (nx - v) m

lemma length_biggestSeries (m : Int) (vs : List Int) :
    (biggestSeries m vs).length = vs.length := by
  induction vs with
  | nil => rfl
  | cons v rest ih => simp [biggestSeries, ih]

lemma mem_biggestSeries_le (m : Int) (vs : List Int) (d : Int)
    (hd : d ∈ biggestSeries m vs) : m ≤ d := by
  induction vs with
  | nil => simp [biggestSeries] at hd
  | cons v rest ih =>
    rcases List.mem_cons.mp hd with h | h
    · rw [h]; exact biggest_le m v rest.head?
    · exact ih h

lemma biggestSeries_getElem?_adj (m : Int) (vs : List Int) (i : Nat) (a b : Int)
    (ha : vs[i]? = some a) (hb : vs[i + 1]? = some b) :
    (biggestSeries m vs)[i]? = some (max (b - a) m) := by
  induction vs generalizing i with
  | nil => simp at ha
  | cons v rest ih =>
    cases i with
    | zero =>
      have hav : v = a := by simpa using ha
      cases rest with
      | nil => simp at hb
      | cons w tail =>
        have hbw : w = b := by simpa using hb
        simp [biggestSeries, biggest, hav, hbw]
    | succ n =>
      simp only [List.getElem?_cons_succ] at ha hb
      simpa [biggestSeries] using ih n ha hb

lemma biggestSeries_getLast (m : Int) (vs : List Int) (h : vs ≠ []) :
    (biggestSeries m vs).getLast? = some m := by
  induction vs with
  | nil => exact absurd rfl h
  | cons v rest ih =>
    cases rest with
    | nil => simp [biggestSeries, biggest]
    | cons w tail =>
      have h2 := ih (by simp)
      calc (biggestSeries m (v :: w :: tail)).getLast?
          = (biggest m v (some w) :: biggest m w tail.head? ::
              biggestSeries m tail).getLast? := rfl
        _ = (biggest m w tail.head? :: biggestSeries m tail).getLast? :=
            List.getLast?_cons_cons
        _ = some m := h2

lemma stride_pos (total samples : Nat) : 0 < stride total samples :=
  Nat.lt_of_lt_of_le Nat.zero_lt_one (Nat.le_max_right _ _)

lemma length_filter_range_mod (s : Nat) (_hs : 0 < s) (n : Nat) :
    ((List.range n).filter fun i => (i + 1) % s == 0).length = n / s := by
  induction n with
  | zero => simp
  | succ n ih =>
    rw [List.range_succ, List.filter_append, List.length_append, ih, Nat.succ_div]
    by_cases hd : s ∣ n + 1
    · have hmod : (n + 1) % s = 0 := Nat.dvd_iff_mod_eq_zero.mp hd
      simp [hmod, hd]
    · have hmod : (n + 1) % s ≠ 0 := fun hc => hd (Nat.dvd_iff_mod_eq_zero.mpr hc)
      simp [hmod, hd]

lemma length_base_query_sample {α : Type} (samples : Nat) (rows : List α) :
    (base_query_sample samples rows).length =
      rows.length / stride rows.length samples := by
  unfold base_query_sample
  rw [List.length_map, ← List.countP_eq_length_filter]
  rw [show (fun p : Nat × α => (p.1 + 1) % stride rows.length samples == 0) =
      ((fun i => (i + 1) % stride rows.length samples == 0) ∘ Prod.fst) from rfl]
  rw [← List.countP_map, List.enum_map_fst, List.countP_eq_length_filter]
  exact length_filter_range_mod _ (stride_pos _ _) _

lemma div_stride_le (total samples : Nat) :
    total / stride total samples ≤ 2 * samples + 1 := by
  rcases le_or_lt total (2 * samples + 1) with h | h
  · exact le_trans (Nat.div_le_self _ _) h
  · have hK1 : samples + 1 ≤ total := by omega
    have hq1 : 1 ≤ total / (samples + 1) := (Nat.one_le_div_iff (by omega)).mpr hK1
    have hst : stride total samples = total / (samples + 1) := Nat.max_eq_left hq1
    rw [hst]
    set q := total / (samples + 1) with hq
    have hq0 : 0 < q := hq1
    have hr : total % (samples + 1) ≤ samples := by
      have hlt : total % (samples + 1) < samples + 1 := Nat.mod_lt total (by omega)
      omega
    have h0 : (samples + 1) * q + total % (samples + 1) = total :=
      Nat.div_add_mod total (samples + 1)
    rw [Nat.mul_comm] at h0
    have hle : total ≤ total % (samples + 1) + q * (samples + 1) := by
      generalize q * (samples + 1) = Q at h0 ⊢
      omega
    calc total / q ≤ (total % (samples + 1) + q * (samples + 1)) / q :=
          Nat.div_le_div_right hle
      _ = total % (samples + 1) / q + (samples + 1) := Nat.add_mul_div_left _ _ hq0
      _ ≤ samples + (samples + 1) :=
          Nat.add_le_add (le_trans (Nat.div_le_self _ _) hr) (Nat.le_refl _)
      _ = 2 * samples + 1 := by omega

lemma flatMap_filter_sublist (hist : List (TsRange × List Snap))
    (q : TsRange × List Snap → Bool) (p : Snap → Bool) :
    List.Sublist ((hist.filter q).flatMap fun h => h.2.filter p)
      (hist.flatMap fun h => h.2) := by
  induction hist with
  | nil => simp
  | cons h t ih =>
    rw [List.flatMap_cons]
    by_cases hq : q h = true
    · rw [List.filter_cons_of_pos hq, List.flatMap_cons]
      exact (List.filter_sublist _).append ih
    · rw [List.filter_cons_of_neg (by simpa using hq)]
      exact ih.trans (List.sublist_append_right _ _)

/-- C1: for every snapshot sequence ordered by `ts` with monotonically
non-decreasing counter values, every delta produced by the
`Biggest`/`Biggestsum` step (`greatest(lead(value) - value, minval)`) is
`≥ 0`; and at a counter drop (reset) the delta for that interval is exactly
the reset floor `minval` (0 for plain counters, the configured minimum
interval for the `ts` field), never a negative value. -/
theorem biggest_delta_nonneg_and_reset_floor (minval : Int) (hm : 0 ≤ minval) :
    (∀ vs : List Int, nonDecreasing vs = true →
      ∀ d ∈ biggestSeries minval vs, 0 ≤ d) ∧
    (∀ (vs : List Int) (i : Nat) (a b : Int), vs[i]? = some a →
      vs[i + 1]? = some b → b < a →
      (biggestSeries minval vs)[i]? = some minval) := by
  constructor
  · intro vs _ d hd
    exact le_trans hm (mem_biggestSeries_le minval vs d hd)
  · intro vs i a b ha hb hba
    rw [biggestSeries_getElem?_adj minval vs i a b ha hb]
    congr 1
    exact max_eq_right (by omega)

/-- C1 witness: the theorem applied at the floor 0, at the non-decreasing
sequence `[5, 15]` (its delta 10 is non-negative) and at the reset sequence
`[100, 20]` (the drop yields exactly the floor 0). -/
theorem biggest_delta_nonneg_and_reset_floor_witness :
    (0 : Int) ≤ 10 ∧ (biggestSeries 0 [100, 20])[0]? = some 0 := by
  have h := biggest_delta_nonneg_and_reset_floor 0 (by decide)
  exact ⟨h.1 [5, 15] (by decide) 10 (by decide),
    h.2 [100, 20] 0 100 20 (by decide) (by decide) (by decide)⟩

set_option maxRecDepth 10000 in
/-- C2 counterexample: with the default budget `K = 100`, a partition of 201
snapshots has stride `int8larger(201/101, 1) = 1`, so all 201 rows are
retained — more than `K`. -/
theorem base_query_sample_budget_counterexample :
    (base_query_sample 100 (List.replicate 201 (0 : Int))).length = 201 ∧
      ¬((base_query_sample 100 (List.replicate 201 (0 : Int))).length ≤ 100) := by
  decide

/-- C2 (amended): the number of rows retained by the selection rule
`number % int8larger(total/(K+1), 1) = 0` is at most `2K + 1` for any input
cardinality; the claimed bound `K` is exceeded whenever
`K + 1 ≤ total ≤ 2K + 1` or more generally when `total` is not a multiple of
`K + 1`. -/
theorem base_query_sample_length_le {α : Type} (samples : Nat) (rows : List α) :
    (base_query_sample samples rows).length ≤ 2 * samples + 1 := by
  rw [length_base_query_sample]
  exact div_stride_le _ _

/-- C3 counterexample: with budget `K = 1`, the partition `[0, 10, 11, 30]`
has stride 2 and retains the snapshots `10` and `30`.  The retained snapshot
`10` is raw row 2 and its true immediately-next raw observation is `11`, but
the pipeline computes its delta as `max(30 - 10, 0) = 20`, not
`max(11 - 10, 0) = 1`: the `lead` window runs over the sampled subset, not
over the unsampled partition. -/
theorem sample_delta_lookahead_counterexample :
    base_query_sample 1 ([0, 10, 11, 30] : List Int) = [10, 30] ∧
      ([0, 10, 11, 30] : List Int)[1]? = some 10 ∧
      ([0, 10, 11, 30] : List Int)[2]? = some 11 ∧
      powa_getstatdata_sample 1 0 [0, 10, 11, 30] = [20, 0] ∧
      (20 : Int) ≠ max (11 - 10) 0 := by
  decide

/-- C3 (amended): each retained snapshot's delta is computed against the next
*retained* snapshot of the downsampled subset, because `powa_getstatdata_sample`
applies `lead` to the output of the sampling filter. -/
theorem sample_delta_next_retained (samples : Nat) (minval : Int) (rows : List Int)
    (i : Nat) (a b : Int)
    (ha : (base_query_sample samples rows)[i]? = some a)
    (hb : (base_query_sample samples rows)[i + 1]? = some b) :
    (powa_getstatdata_sample samples minval rows)[i]? = some (max (b - a) minval) :=
  biggestSeries_getElem?_adj minval _ i a b ha hb

/-- C3 witness: the amended theorem at `[0, 10, 11, 30]`, budget 1: the delta
of the first retained snapshot `10` is against the next retained one, `30`. -/
theorem sample_delta_next_retained_witness :
    (powa_getstatdata_sample 1 0 [0, 10, 11, 30])[0]? = some (max (30 - 10) 0) :=
  sample_delta_next_retained 1 0 [0, 10, 11, 30] 0 10 30 (by decide) (by decide)

/-- C4 counterexample: a partition of 2 snapshots entering the delta step
produces 2 output rows, not `2 - 1 = 1`: `lead` is `NULL` on the last row,
PostgreSQL `greatest` ignores `NULL`, and no clause filters the row out, so
the last point is kept with delta `minval` instead of being dropped. -/
theorem delta_cardinality_counterexample :
    (biggestSeries 0 ([4, 7] : List Int)).length = 2 ∧
      (biggestSeries 0 ([4, 7] : List Int)).length ≠ ([4, 7] : List Int).length - 1 := by
  decide

/-- C4 (amended): for every partition with `n ≥ 1` snapshots entering the
delta step, the delta series contains exactly `n` rows; the last point of the
partition, having no successor, is kept and its delta equals the floor
`minval`. -/
theorem delta_series_length_and_last (minval : Int) (vs : List Int) (h : vs ≠ []) :
    (biggestSeries minval vs).length = vs.length ∧
      (biggestSeries minval vs).getLast? = some minval :=
  ⟨length_biggestSeries minval vs, biggestSeries_getLast minval vs h⟩

/-- C4 witness: the amended theorem at the 2-snapshot partition `[3, 9]`. -/
theorem delta_series_length_and_last_witness :
    (biggestSeries 0 [3, 9]).length = 2 ∧ (biggestSeries 0 [3, 9]).getLast? = some 0 :=
  delta_series_length_and_last 0 [3, 9] (by decide)

/-- C5: rate normalization always divides by `greatest(denominator, 1)`: the
denominator is at least 1, hence never 0 (no divide-by-zero is possible), and
for a zero-length interval or a zero call delta the rate is computed against
the floor 1 instead of failing. -/
theorem rate_denominators_floored (delta runtime elapsed calls : ℚ) :
    1 ≤ greatest elapsed 1 ∧ greatest elapsed 1 ≠ 0 ∧
      1 ≤ greatest calls 1 ∧ greatest calls 1 ≠ 0 ∧
      calls_rate delta 0 = delta ∧ avg_runtime runtime 0 = runtime ∧
      load_rate runtime 0 = runtime := by
  have h1 : ∀ x : ℚ, 1 ≤ greatest x 1 := fun x => le_max_right x 1
  have h0 : ∀ x : ℚ, greatest x 1 ≠ 0 := fun x =>
    ne_of_gt (lt_of_lt_of_le one_pos (h1 x))
  have hM : greatest (0 : ℚ) 1 = 1 := max_eq_right zero_le_one
  exact ⟨h1 elapsed, h0 elapsed, h1 calls, h0 calls,
    by rw [calls_rate, hM, div_one], by rw [avg_runtime, hM, div_one],
    by rw [load_rate, hM, div_one]⟩

/-- C6 counterexample: three coalesced ranges `[0,10]`, `[20,30]`, `[40,50]`
overlap the window `[0,50]`; `powa_base_statdata_db` unnests only the ranges
containing `min_ts = 0` or `max_ts = 50`, so the stored snapshot at
`ts = 25`, which lies inside the middle range and inside the window, is
missing from the output. -/
theorem statdata_db_missing_middle_range :
    rangeContains ⟨20, 30⟩ 25 = true ∧ inWindow ⟨0, 50⟩ ⟨25, 2⟩ = true ∧
      (⟨25, 2⟩ : Snap) ∈
        ([(⟨0, 10⟩, [⟨5, 1⟩]), (⟨20, 30⟩, [⟨25, 2⟩]), (⟨40, 50⟩, [⟨45, 3⟩])] :
          List (TsRange × List Snap)).flatMap (fun h => h.2) ∧
      (⟨25, 2⟩ : Snap) ∉
        powa_base_statdata_db
          [(⟨0, 10⟩, [⟨5, 1⟩]), (⟨20, 30⟩, [⟨25, 2⟩]), (⟨40, 50⟩, [⟨45, 3⟩])]
          [] ⟨0, 50⟩ := by
  decide

/-- C6 (amended): the detailed tier-stitching query
(`powa_base_statdata_detailed_db`) satisfies the claim: provided each stored
record's `ts` lies inside its row's coalesce range, every stored snapshot
whose `ts` lies in the closed window appears in the output, and no snapshot
appears more often than it is stored (so snapshots stored once are never
double-counted).  The database-aggregate variant (`powa_base_statdata_db`)
does not: it only unnests the overlapping ranges containing the least lower
bound or the greatest upper bound, omitting snapshots of intermediate
overlapping ranges. -/
theorem statdata_detailed_complete_no_dup
    (hist : List (TsRange × List Snap)) (cur : List Snap) (w : TsRange)
    (hinv : ∀ h ∈ hist, ∀ s ∈ h.2, rangeContains h.1 s.ts = true) :
    (∀ s : Snap, inWindow w s = true →
      (s ∈ hist.flatMap (fun h => h.2) ∨ s ∈ cur) →
        s ∈ powa_base_statdata_detailed_db hist cur w) ∧
    (∀ s : Snap,
      (powa_base_statdata_detailed_db hist cur w).count s ≤
        (hist.flatMap (fun h => h.2) ++ cur).count s) := by
  constructor
  · intro s hwin hsrc
    unfold powa_base_statdata_detailed_db
    rcases hsrc with hh | hc
    · apply List.mem_append_left
      rcases List.mem_flatMap.mp hh with ⟨h, hmem, hs⟩
      refine List.mem_flatMap.mpr ⟨h, List.mem_filter.mpr ⟨hmem, ?_⟩,
        List.mem_filter.mpr ⟨hs, hwin⟩⟩
      have hcont := hinv h hmem s hs
      simp only [rangeOverlaps, rangeContains, inWindow, Bool.and_eq_true,
        decide_eq_true_eq] at hcont hwin ⊢
      omega
    · exact List.mem_append_right _ (List.mem_filter.mpr ⟨hc, hwin⟩)
  · intro s
    unfold powa_base_statdata_detailed_db
    rw [List.count_append, List.count_append]
    exact Nat.add_le_add ((flatMap_filter_sublist hist _ _).count_le s)
      ((List.filter_sublist cur).count_le s)

/-- C6 witness: the amended theorem on a store with one historical range and
one current-tail record; the historical snapshot at `ts = 5` is returned. -/
theorem statdata_detailed_complete_no_dup_witness :
    (⟨5, 1⟩ : Snap) ∈
      powa_base_statdata_detailed_db [(⟨0, 10⟩, [⟨5, 1⟩])] [⟨15, 2⟩] ⟨0, 20⟩ := by
  have h := statdata_detailed_complete_no_dup [(⟨0, 10⟩, [⟨5, 1⟩])] [⟨15, 2⟩] ⟨0, 20⟩
    (by decide)
  exact h.1 ⟨5, 1⟩ (by decide) (Or.inl (by decide))

/-- C7 counterexample: `total_blks_read` is a base field, present in the
schema without `pg_stat_kcache`, but `_get_metrics` pops it when the
capability flips to present — the base fields do not all remain. -/
theorem schema_drops_total_blks_read :
    MetricField.total_blks_read ∈ get_metrics false ∧
      MetricField.total_blks_read ∉ get_metrics true := by
  decide

/-- C7 (amended): without `pg_stat_kcache` the extension-sourced fields are
omitted from the schema entirely; flipping the capability to present adds all
extension fields and keeps every base field except `total_blks_read`, which
`_get_metrics` pops in the kcache branch (it is superseded by
`total_disk_read` and `total_sys_hit`). -/
theorem get_metrics_schema_change :
    (∀ k ∈ kcacheOnlyFields, k ∉ get_metrics false) ∧
      (∀ k ∈ kcacheOnlyFields, k ∈ get_metrics true) ∧
      (∀ k ∈ get_metrics false, k ≠ MetricField.total_blks_read →
        k ∈ get_metrics true) ∧
      MetricField.total_blks_read ∈ get_metrics false ∧
      MetricField.total_blks_read ∉ get_metrics true := by
  decide

/-- C7 witness: the amended theorem at the extension field `minflts`, absent
without the capability and present with it. -/
theorem get_metrics_schema_change_witness :
    MetricField.minflts ∉ get_metrics false ∧ MetricField.minflts ∈ get_metrics true := by
  have h := get_metrics_schema_change
  exact ⟨h.1 MetricField.minflts (by decide), h.2.1 MetricField.minflts (by decide)⟩

/-- C8: when aggregating multiple underlying series into one coarser key, a
group whose counter shows no overall increase across the window
(`max - min ≤ 0`) is discarded by the `HAVING max(col) - min(col) > 0`
clause, for statement data (`calls`) and wait-event data (`count`) alike. -/
theorem having_discards_no_increase (groups : List (Nat × List Int))
    (g : Nat × List Int) (M m : Int) (hM : g.2.max? = some M)
    (hm : g.2.min? = some m) (hle : M - m ≤ 0) :
    g ∉ powa_getstatdata_detailed_db groups ∧
      g ∉ powa_getwaitdata_detailed_db groups := by
  have hpred : havingMaxMinPos g.2 = false := by
    simp only [havingMaxMinPos, hM, hm, decide_eq_false_iff_not]
    omega
  constructor <;>
    · intro hmem
      rcases List.mem_filter.mp hmem with ⟨_, hp⟩
      rw [hpred] at hp
      exact Bool.false_ne_true hp

/-- C8 witness: a group whose counter stays at 7 over the whole window is
discarded from both outputs. -/
theorem having_discards_no_increase_witness :
    (1, ([7, 7, 7] : List Int)) ∉ powa_getstatdata_detailed_db [(1, [7, 7, 7])] ∧
      (1, ([7, 7, 7] : List Int)) ∉ powa_getwaitdata_detailed_db [(1, [7, 7, 7])] :=
  having_discards_no_increase [(1, [7, 7, 7])] (1, [7, 7, 7]) 7 7
    (by decide) (by decide) (by decide)

/-- C9: invoking a wait-event metric group for a server lacking
`pg_wait_sampling` fails in `prepare` with `HTTPError(501, ...)` before any
query runs — the request errors out instead of returning a silently empty
series, and nothing retries it — while a server with the extension proceeds
normally. -/
theorem wait_metrics_prepare_501 :
    prepare false = Except.error ⟨501, "pg_wait_sampling is not installed"⟩ ∧
      prepare true = Except.ok () :=
  ⟨rfl, rfl⟩

/-- C10: a partition whose snapshot count is at most the sample budget has
stride `int8larger(total/(K+1), 1) = 1`, and every snapshot of the partition
is kept (output cardinality equals input cardinality). -/
theorem downsample_keeps_all_when_under_budget {α : Type} (samples : Nat)
    (rows : List α) (h : rows.length ≤ samples) :
    stride rows.length samples = 1 ∧ base_query_sample samples rows = rows := by
  have hs : stride rows.length samples = 1 := by
    unfold stride int8larger
    have hz : rows.length / (samples + 1) = 0 := Nat.div_eq_of_lt (by omega)
    simp [hz]
  refine ⟨hs, ?_⟩
  unfold base_query_sample
  rw [hs]
  have hfil : (rows.enum.filter fun p => (p.1 + 1) % 1 == 0) = rows.enum :=
    List.filter_eq_self.mpr (by intro a _; simp [Nat.mod_one])
  rw [hfil]
  exact List.enum_map_snd rows

/-- C10 witness: the theorem at a 3-snapshot partition with budget 100. -/
theorem downsample_keeps_all_when_under_budget_witness :
    stride 3 100 = 1 ∧ base_query_sample 100 ([10, 20, 30] : List Int) = [10, 20, 30] :=
  downsample_keeps_all_when_under_budget 100 ([10, 20, 30] : List Int) (by decide)
